import Mathlib

/-!
Verification of the opdroid Android-controller repository.

Shallow embedding conventions:
* Python strings are `List Char` (all strings occurring here are ASCII, so the
  ASCII-only behaviour of `Char.toUpper`, `Char.isAlpha`, `Char.isDigit`
  coincides with Python's `str.upper`, `str.isalpha`, `str.isdigit`).
* Python floats are modelled by `ℚ`; every float computation in the embedded
  code is dyadic or small enough to be exact in double precision, so the
  rational value is the value the float computation produces.
* Python `int(x)` (truncation toward zero) is `pyInt`; `math.ceil` is `⌈·⌉`,
  float `//` is `⌊·⌋`-division.
* Fallible code (`raise ValueError`) returns `Option`.
-/

/-- Python `str(n)` for a natural number: decimal digits.  Implemented with a
structural fuel argument (`n + 1` steps always suffice since the argument is
divided by ten each step). -/
def natStrAux : Nat → Nat → List Char
  | 0, _ => []
  | fuel + 1, n =>
    if n < 10 then [Char.ofNat (48 + n)]
    else natStrAux fuel (n / 10) ++ [Char.ofNat (48 + n % 10)]

/-- Python `str(n)` for a natural number. -/
def natStr (n : Nat) : List Char := natStrAux (n + 1) n

/-- Python `int(q)` on an exact rational: truncation toward zero. -/
def pyInt (q : ℚ) : Int := if 0 ≤ q then ⌊q⌋ else ⌈q⌉

/-- Python `pat in s` substring test on strings. -/
def containsSub (pat : List Char) : List Char → Bool
  | [] => pat.isEmpty
  | c :: rest => pat.isPrefixOf (c :: rest) || containsSub pat rest

/-! ## grid.py -/

/-- `CELL_SIZE` from grid.py. -/
def CELL_SIZE : Nat := 40

/-- `get_column_label` from grid.py:
`chr(ord('A')+col)` for `col < 26`, otherwise
`chr(ord('A') + col//26 - 1) + chr(ord('A') + col%26)`;
`chr` is `Char.ofNat`. -/
def get_column_label (col : Nat) : List Char :=
  if col < 26 then [Char.ofNat (65 + col)]
  else [Char.ofNat (65 + col / 26 - 1), Char.ofNat (65 + col % 26)]

/-- The column characters `grid_cell_to_pixels` collects: every alphabetic
character of the uppercased cell string, in order. -/
def column_letters (cell : List Char) : List Char :=
  (cell.map Char.toUpper).filter Char.isAlpha

/-- The row characters `grid_cell_to_pixels` collects: every digit of the
uppercased cell string, in order. -/
def row_digits (cell : List Char) : List Char :=
  (cell.map Char.toUpper).filter Char.isDigit

/-- The column-letter fold of grid.py lines 97-99:
`col_idx = col_idx * 26 + (ord(char) - ord('A') + 1)`. -/
def letters_to_index (s : List Char) : Nat :=
  s.foldl (fun acc c => acc * 26 + (c.toNat - 65 + 1)) 0

/-- Python `int` applied to a string of decimal digits. -/
def digits_to_nat (s : List Char) : Nat :=
  s.foldl (fun acc c => acc * 10 + (c.toNat - 48)) 0

/-- `grid_cell_to_pixels` from grid.py.  The `ValueError` raised for a cell
with no letters or no digits is modelled by `none`. -/
def grid_cell_to_pixels (cell : List Char) (cell_size : Nat) : Option (Int × Int) :=
  let col_str := column_letters cell
  let row_str := row_digits cell
  if col_str = [] ∨ row_str = [] then none
  else
    let col_idx : Nat := letters_to_index col_str - 1
    let row_idx : Int := (digits_to_nat row_str : Int) - 1
    some (pyInt (((col_idx : ℚ) + 1 / 2) * cell_size),
          pyInt (((row_idx : ℚ) + 1 / 2) * cell_size))

/-- The base-26 letter-to-index decoding used by `grid_cell_to_pixels` on the
column letters of a cell string (upper-case, keep alphabetic characters, fold,
subtract one). -/
def delabel (s : List Char) : Nat := letters_to_index (column_letters s) - 1

/-- C1 counterexample: at `n = 702` the label produced by `get_column_label`
begins with the non-letter character `chr(91)`, so decoding it with the rule
used in `grid_cell_to_pixels` yields `0`, not `702`.  The round-trip claimed
for every non-negative integer therefore fails. -/
theorem c1_roundtrip_fails_at_702 :
    delabel (get_column_label 702) = 0 ∧ (0 : Nat) ≠ 702 :=
  ⟨by decide, by decide⟩

set_option maxRecDepth 8000 in
/-- C1 (amended): for every `n < 702` — that is, for every column label from
"A" to "ZZ" — decoding the column label produced by `get_column_label n` with
the base-26 letter-to-index rule used in `grid_cell_to_pixels` gives back
exactly `n`. -/
theorem c1_column_label_roundtrip : ∀ n : Nat, n < 702 → delabel (get_column_label n) = n := by
  decide

/-- Witness for `c1_column_label_roundtrip` at `n = 701` (label "ZZ"). -/
theorem c1_column_label_roundtrip_witness :
    701 < 702 ∧ delabel (get_column_label 701) = 701 :=
  ⟨by decide, c1_column_label_roundtrip 701 (by decide)⟩

/-! ### Character-class facts (ASCII behaviour of the Python predicates) -/

theorem char_isAlpha_of_upper (c : Char) (h1 : 65 ≤ c.toNat) (h2 : c.toNat ≤ 90) :
    c.isAlpha = true := by
  unfold Char.isAlpha Char.isUpper Char.isLower
  simp only [ge_iff_le, UInt32.le_def, BitVec.le_def, Bool.or_eq_true, Bool.and_eq_true,
    decide_eq_true_eq]
  left
  exact ⟨h1, h2⟩

theorem char_isDigit_of (c : Char) (h1 : 48 ≤ c.toNat) (h2 : c.toNat ≤ 57) :
    c.isDigit = true := by
  unfold Char.isDigit
  simp only [ge_iff_le, UInt32.le_def, BitVec.le_def, Bool.and_eq_true, decide_eq_true_eq]
  exact ⟨h1, h2⟩

theorem char_isAlpha_false_of_digit (c : Char) (h2 : c.toNat ≤ 57) :
    c.isAlpha = false := by
  unfold Char.isAlpha Char.isUpper Char.isLower
  simp only [ge_iff_le, UInt32.le_def, BitVec.le_def, Bool.or_eq_false_iff, Bool.and_eq_false_iff,
    decide_eq_false_iff_not]
  constructor
  · left
    show ¬ (65 ≤ c.toNat)
    omega
  · left
    show ¬ (97 ≤ c.toNat)
    omega

theorem char_isDigit_false_of_upper (c : Char) (h1 : 65 ≤ c.toNat) :
    c.isDigit = false := by
  unfold Char.isDigit
  simp only [ge_iff_le, UInt32.le_def, BitVec.le_def, Bool.and_eq_false_iff,
    decide_eq_false_iff_not]
  right
  show ¬ (c.toNat ≤ 57)
  omega

theorem char_toUpper_of_not_lower (c : Char) (h2 : c.toNat ≤ 90) : c.toUpper = c := by
  unfold Char.toUpper
  rw [if_neg]
  omega

theorem map_toUpper_eq_self (s : List Char) (h : ∀ c ∈ s, c.toNat ≤ 90) :
    s.map Char.toUpper = s := by
  induction s with
  | nil => rfl
  | cons c rest ih =>
    simp only [List.map_cons, List.cons.injEq]
    exact ⟨char_toUpper_of_not_lower c (h c (by simp)),
      ih (fun d hd => h d (by simp [hd]))⟩

theorem filter_alpha_of_letters (s : List Char) (h : ∀ c ∈ s, 65 ≤ c.toNat ∧ c.toNat ≤ 90) :
    s.filter Char.isAlpha = s := by
  induction s with
  | nil => rfl
  | cons c rest ih =>
    have hc := h c (by simp)
    simp only [List.filter_cons, char_isAlpha_of_upper c hc.1 hc.2, if_pos]
    rw [ih (fun d hd => h d (by simp [hd]))]

theorem filter_alpha_of_digits (s : List Char) (h : ∀ c ∈ s, 48 ≤ c.toNat ∧ c.toNat ≤ 57) :
    s.filter Char.isAlpha = [] := by
  induction s with
  | nil => rfl
  | cons c rest ih =>
    have hc := h c (by simp)
    simp only [List.filter_cons, char_isAlpha_false_of_digit c hc.2]
    exact ih (fun d hd => h d (by simp [hd]))

theorem filter_digit_of_digits (s : List Char) (h : ∀ c ∈ s, 48 ≤ c.toNat ∧ c.toNat ≤ 57) :
    s.filter Char.isDigit = s := by
  induction s with
  | nil => rfl
  | cons c rest ih =>
    have hc := h c (by simp)
    simp only [List.filter_cons, char_isDigit_of c hc.1 hc.2, if_pos]
    rw [ih (fun d hd => h d (by simp [hd]))]

theorem filter_digit_of_letters (s : List Char) (h : ∀ c ∈ s, 65 ≤ c.toNat ∧ c.toNat ≤ 90) :
    s.filter Char.isDigit = [] := by
  induction s with
  | nil => rfl
  | cons c rest ih =>
    have hc := h c (by simp)
    simp only [List.filter_cons, char_isDigit_false_of_upper c hc.1]
    exact ih (fun d hd => h d (by simp [hd]))

theorem column_letters_split (ls ds : List Char)
    (hlc : ∀ c ∈ ls, 65 ≤ c.toNat ∧ c.toNat ≤ 90)
    (hdc : ∀ c ∈ ds, 48 ≤ c.toNat ∧ c.toNat ≤ 57) :
    column_letters (ls ++ ds) = ls := by
  unfold column_letters
  rw [List.map_append, List.filter_append,
    map_toUpper_eq_self ls (fun c hc => (hlc c hc).2),
    map_toUpper_eq_self ds (fun c hc => le_trans (hdc c hc).2 (by norm_num)),
    filter_alpha_of_letters ls hlc, filter_alpha_of_digits ds hdc, List.append_nil]

theorem row_digits_split (ls ds : List Char)
    (hlc : ∀ c ∈ ls, 65 ≤ c.toNat ∧ c.toNat ≤ 90)
    (hdc : ∀ c ∈ ds, 48 ≤ c.toNat ∧ c.toNat ≤ 57) :
    row_digits (ls ++ ds) = ds := by
  unfold row_digits
  rw [List.map_append, List.filter_append,
    map_toUpper_eq_self ls (fun c hc => (hlc c hc).2),
    map_toUpper_eq_self ds (fun c hc => le_trans (hdc c hc).2 (by norm_num)),
    filter_digit_of_letters ls hlc, filter_digit_of_digits ds hdc, List.nil_append]

theorem pyInt_of_nonneg {q : ℚ} (h : 0 ≤ q) : pyInt q = ⌊q⌋ := if_pos h

/-- Modelled from the spec's words for C5: the column index of a letter
string, reading the letters as 1-indexed base-26 digits (A=1, ..., Z=26) and
subtracting one at the end. -/
def spec_col_index (letters : List Char) : Nat :=
  letters.foldl (fun acc c => acc * 26 + (c.toNat - 64)) 0 - 1

/-- Modelled from the spec's words for C5: the 1-based row number of a digit
string, read in decimal. -/
def spec_row_number (ds : List Char) : Nat :=
  ds.foldl (fun acc c => 10 * acc + (c.toNat - 48)) 0

theorem letters_fold_congr (s : List Char) (h : ∀ c ∈ s, 65 ≤ c.toNat) :
    ∀ acc : Nat,
      s.foldl (fun acc c => acc * 26 + (c.toNat - 65 + 1)) acc =
        s.foldl (fun acc c => acc * 26 + (c.toNat - 64)) acc := by
  induction s with
  | nil => intro _; rfl
  | cons c rest ih =>
    intro acc
    simp only [List.foldl_cons]
    have hc : c.toNat - 65 + 1 = c.toNat - 64 := by
      have := h c (by simp)
      omega
    rw [hc]
    exact ih (fun d hd => h d (by simp [hd])) _

theorem letters_to_index_eq_spec (s : List Char) (h : ∀ c ∈ s, 65 ≤ c.toNat) :
    letters_to_index s = s.foldl (fun acc c => acc * 26 + (c.toNat - 64)) 0 :=
  letters_fold_congr s h 0

theorem digits_to_nat_eq_spec (s : List Char) : digits_to_nat s = spec_row_number s := by
  unfold digits_to_nat spec_row_number
  have : (fun (acc : Nat) (c : Char) => acc * 10 + (c.toNat - 48)) =
      fun (acc : Nat) (c : Char) => 10 * acc + (c.toNat - 48) := by
    funext acc c
    ring_nf
  rw [this]

theorem grid_eval_E10 (cell : List Char)
    (h1 : column_letters cell = ['E'])
    (h2 : row_digits cell = ['1', '0']) :
    grid_cell_to_pixels cell 40 = some (180, 380) := by
  simp only [grid_cell_to_pixels, h1, h2]
  rw [if_neg (by simp)]
  have h3 : letters_to_index ['E'] = 5 := by decide
  have h4 : digits_to_nat ['1', '0'] = 10 := by decide
  rw [h3, h4]
  norm_num [pyInt]

/-- C5 counterexample: for the well-formed cell "A1" with cell size 1 the
function returns `(0, 0)`, but the claimed exact center
`(colIndex + 0.5) * cellSize = 0.5` is not `0`: the code truncates with
`int(...)`, so the claimed equality fails for odd cell sizes. -/
theorem c5_center_formula_fails :
    grid_cell_to_pixels (("A1").toList) 1 = some (0, 0) ∧
    ((0 : ℚ) + 1 / 2) * 1 ≠ ((0 : Int) : ℚ) := by
  constructor
  · have h1 : column_letters (("A1").toList) = ['A'] := by decide
    have h2 : row_digits (("A1").toList) = ['1'] := by decide
    simp only [grid_cell_to_pixels, h1, h2]
    rw [if_neg (by simp)]
    have h3 : letters_to_index ['A'] = 1 := by decide
    have h4 : digits_to_nat ['1'] = 1 := by decide
    rw [h3, h4]
    norm_num [pyInt]
  · norm_num

/-- C5 (amended): for every well-formed cell string (an uppercase letter part
followed by a digit part with row number at least 1) and every cell size,
`grid_cell_to_pixels` returns the truncated center
`x = ⌊(colIndex + 0.5) * cellSize⌋` and `y = ⌊(rowIndex - 1 + 0.5) * cellSize⌋`
(the exact center whenever `cellSize` is even); in particular
`cellToPixel("E10", 40) = (180, 380)`. -/
theorem c5_cell_to_pixel_center (ls ds : List Char) (cs : Nat)
    (hl : ls ≠ []) (hlc : ∀ c ∈ ls, 65 ≤ c.toNat ∧ c.toNat ≤ 90)
    (hd : ds ≠ []) (hdc : ∀ c ∈ ds, 48 ≤ c.toNat ∧ c.toNat ≤ 57)
    (hrow : 1 ≤ spec_row_number ds) :
    grid_cell_to_pixels (ls ++ ds) cs =
      some (⌊((spec_col_index ls : ℚ) + 1 / 2) * cs⌋,
            ⌊((spec_row_number ds : ℚ) - 1 + 1 / 2) * cs⌋) ∧
    grid_cell_to_pixels (("E10").toList) 40 = some (180, 380) := by
  constructor
  · simp only [grid_cell_to_pixels, column_letters_split ls ds hlc hdc,
      row_digits_split ls ds hlc hdc]
    rw [if_neg (by push_neg; exact ⟨hl, hd⟩)]
    have hcol : letters_to_index ls - 1 = spec_col_index ls := by
      rw [letters_to_index_eq_spec ls (fun c hc => (hlc c hc).1)]
      rfl
    have hrn : digits_to_nat ds = spec_row_number ds := digits_to_nat_eq_spec ds
    rw [hcol, hrn]
    have hx : pyInt (((spec_col_index ls : ℚ) + 1 / 2) * cs) =
        ⌊((spec_col_index ls : ℚ) + 1 / 2) * cs⌋ :=
      pyInt_of_nonneg (by positivity)
    have hr1 : (1 : ℚ) ≤ (spec_row_number ds : ℚ) := by exact_mod_cast hrow
    have hy : ((((spec_row_number ds : Int) - 1 : Int) : ℚ) + 1 / 2) * cs =
        ((spec_row_number ds : ℚ) - 1 + 1 / 2) * cs := by
      push_cast
      ring
    rw [hy, hx]
    have hynn : (0 : ℚ) ≤ ((spec_row_number ds : ℚ) - 1 + 1 / 2) * cs := by
      have hcs : (0 : ℚ) ≤ (cs : ℚ) := by positivity
      nlinarith
    rw [pyInt_of_nonneg hynn]
  · exact grid_eval_E10 _ (by decide) (by decide)

/-- Witness for `c5_cell_to_pixel_center` at the cell "E10" with cell size
40. -/
theorem c5_cell_to_pixel_center_witness :
    grid_cell_to_pixels (['E'] ++ ['1', '0']) 40 =
      some (⌊((spec_col_index ['E'] : ℚ) + 1 / 2) * 40⌋,
            ⌊((spec_row_number ['1', '0'] : ℚ) - 1 + 1 / 2) * 40⌋) :=
  (c5_cell_to_pixel_center ['E'] ['1', '0'] 40 (by decide) (by decide) (by decide)
    (by decide) (by decide)).1

/-- C10: `grid_cell_to_pixels` depends only on the uppercased letter
subsequence and the digit subsequence of the cell string, regardless of case,
character order, or interleaved non-alphanumeric characters; in particular
"e10", "E10", "10E" and "E-10" all map to the same pixel, `(180, 380)` at
cell size 40. -/
theorem c10_cell_parse_insensitive :
    (∀ (s t : List Char) (cs : Nat),
        column_letters s = column_letters t → row_digits s = row_digits t →
        grid_cell_to_pixels s cs = grid_cell_to_pixels t cs) ∧
    grid_cell_to_pixels (("e10").toList) 40 = some (180, 380) ∧
    grid_cell_to_pixels (("E10").toList) 40 = some (180, 380) ∧
    grid_cell_to_pixels (("10E").toList) 40 = some (180, 380) ∧
    grid_cell_to_pixels (("E-10").toList) 40 = some (180, 380) := by
  refine ⟨fun s t cs h1 h2 => ?_, ?_, ?_, ?_, ?_⟩
  · unfold grid_cell_to_pixels
    rw [h1, h2]
  · exact grid_eval_E10 _ (by decide) (by decide)
  · exact grid_eval_E10 _ (by decide) (by decide)
  · exact grid_eval_E10 _ (by decide) (by decide)
  · exact grid_eval_E10 _ (by decide) (by decide)

/-- Witness for `c10_cell_parse_insensitive`: the lowercase cell "e10" and
the reordered cell "10E" give the same pixel. -/
theorem c10_cell_parse_insensitive_witness :
    grid_cell_to_pixels (("e10").toList) 40 = grid_cell_to_pixels (("10E").toList) 40 :=
  c10_cell_parse_insensitive.1 _ _ 40 (by decide) (by decide)

/-! ## ui_hierarchy.py -/

/-- A maximal run of digits and the remainder, used for the greedy `\d+`
groups of the bounds pattern (each group is followed by a non-digit literal,
so the greedy maximal run is the only possible match). -/
def take_digits (s : List Char) : List Char × List Char :=
  (s.takeWhile Char.isDigit, s.dropWhile Char.isDigit)

/-- The anchored match of `parse_bounds`' regular expression
`\[(\d+),(\d+)\]\[(\d+),(\d+)\]` (`re.match`: anchored at the start, the
tail after the final `]` is ignored); `none` when the string does not
match. -/
def parse_bounds_match (s : List Char) : Option (Nat × Nat × Nat × Nat) :=
  match s with
  | '[' :: r1 =>
    let p1 := take_digits r1
    if p1.1 = [] then none else
    match p1.2 with
    | ',' :: r3 =>
      let p2 := take_digits r3
      if p2.1 = [] then none else
      match p2.2 with
      | ']' :: '[' :: r5 =>
        let p3 := take_digits r5
        if p3.1 = [] then none else
        match p3.2 with
        | ',' :: r7 =>
          let p4 := take_digits r7
          if p4.1 = [] then none else
          match p4.2 with
          | ']' :: _ =>
            some (digits_to_nat p1.1, digits_to_nat p2.1, digits_to_nat p3.1, digits_to_nat p4.1)
          | _ => none
        | _ => none
      | _ => none
    | _ => none
  | _ => none

/-- `parse_bounds` from ui_hierarchy.py: `(0, 0, 0, 0)` when the pattern does
not match. -/
def parse_bounds (s : List Char) : Nat × Nat × Nat × Nat :=
  (parse_bounds_match s).getD (0, 0, 0, 0)

/-- `bounds_to_cell_info` from ui_hierarchy.py.  Floats are modelled by `ℚ`;
`math.ceil` is `⌈·⌉`, float `//` is `⌊·⌋` of the quotient, and the f-string
`f"{label}{row + 1}"` is `get_column_label` / `natStr` (the computed column
and row indices are non-negative whenever the sizes are positive, so `.toNat`
is exact there). -/
def bounds_to_cell_info (bounds_str : List Char) (original_size resized_size : Nat × Nat)
    (cell_size : Nat) : List Char × List Char :=
  let p := parse_bounds bounds_str
  let x1 := p.1
  let y1 := p.2.1
  let x2 := p.2.2.1
  let y2 := p.2.2.2
  let scale_x : ℚ := (resized_size.1 : ℚ) / original_size.1
  let scale_y : ℚ := (resized_size.2 : ℚ) / original_size.2
  let x1s : ℚ := x1 * scale_x
  let y1s : ℚ := y1 * scale_y
  let x2s : ℚ := x2 * scale_x
  let y2s : ℚ := y2 * scale_y
  let start_col : Int := ⌈x1s / cell_size - 1 / 2⌉
  let end_col0 : Int := ⌈x2s / cell_size - 1 / 2⌉ - 1
  let start_row : Int := ⌈y1s / cell_size - 1 / 2⌉
  let end_row0 : Int := ⌈y2s / cell_size - 1 / 2⌉ - 1
  let end_col : Int := if end_col0 < start_col then start_col else end_col0
  let end_row : Int := if end_row0 < start_row then start_row else end_row0
  let start_cell := get_column_label start_col.toNat ++ natStr (start_row + 1).toNat
  let end_cell := get_column_label end_col.toNat ++ natStr (end_row + 1).toNat
  let bound_range :=
    if start_cell = end_cell then ("[").toList ++ start_cell ++ ("]").toList
    else ("[").toList ++ start_cell ++ (",").toList ++ end_cell ++ ("]").toList
  let center_x_raw : ℚ := ((x1 : ℚ) + x2) / 2
  let center_y_raw : ℚ := ((y1 : ℚ) + y2) / 2
  let center_x_scaled := center_x_raw * scale_x
  let center_y_scaled := center_y_raw * scale_y
  let click_col : Int := ⌊center_x_scaled / cell_size⌋
  let click_row : Int := ⌊center_y_scaled / cell_size⌋
  let click_cell := get_column_label click_col.toNat ++ natStr (click_row + 1).toNat
  (bound_range, click_cell)

/-- `_get_short_class_name` from ui_hierarchy.py: the fragment after the last
dot. -/
def get_short_class_name (s : List Char) : List Char :=
  if s.contains '.' then (s.reverse.takeWhile (fun c => c ≠ '.')).reverse else s

/-- The `short_id` computation of `_collect_interactive_elements`: the
fragment after the last slash. -/
def short_resource_id (s : List Char) : List Char :=
  if s.contains '/' then (s.reverse.takeWhile (fun c => c ≠ '/')).reverse else s

/-- The attributes `_collect_interactive_elements` reads off an XML element
(with the defaults of `element.get`: empty strings, false flags). -/
structure UIAttrs where
  className : List Char
  text : List Char
  resourceId : List Char
  contentDesc : List Char
  clickable : Bool
  scrollable : Bool
  bounds : List Char
deriving DecidableEq

/-- An XML element tree as traversed by `_collect_interactive_elements`. -/
inductive UIElement where
  | node (attrs : UIAttrs) (children : List UIElement)

/-- The description line `_collect_interactive_elements` builds for one
included element. -/
def describe_element (original_size resized_size : Nat × Nat) (a : UIAttrs) : List Char :=
  let class_name := get_short_class_name a.className
  let parts0 : List (List Char) := [("[").toList ++ class_name ++ ("]").toList]
  let parts1 := parts0 ++
    (if a.text ≠ [] then [("\"").toList ++ a.text ++ ("\"").toList]
     else if a.contentDesc ≠ [] then [("desc=\"").toList ++ a.contentDesc ++ ("\"").toList]
     else [])
  let parts2 := parts1 ++
    (if a.resourceId ≠ [] then
        [("id=\"").toList ++ short_resource_id a.resourceId ++ ("\"").toList]
     else [])
  let click_cell := (bounds_to_cell_info a.bounds original_size resized_size CELL_SIZE).2
  let parts3 := parts2 ++ [("position=\"").toList ++ click_cell ++ ("\"").toList]
  let parts4 := parts3 ++ (if a.scrollable then [("(scrollable)").toList] else [])
  ("\x7b ").toList ++ List.intercalate ((" ").toList) parts4 ++ (" \x7d").toList

mutual

/-- `_collect_interactive_elements` from ui_hierarchy.py, on one element:
the element's own description (when it is clickable or scrollable and its
bounds attribute string is non-empty) followed by the descriptions collected
from its children, in order. -/
def collect_interactive_element (original_size resized_size : Nat × Nat) :
    UIElement → List (List Char)
  | .node a children =>
    (if (a.clickable || a.scrollable) && !a.bounds.isEmpty then
        [describe_element original_size resized_size a]
     else []) ++ collect_interactive_children original_size resized_size children

/-- `_collect_interactive_elements` iterated over a list of children. -/
def collect_interactive_children (original_size resized_size : Nat × Nat) :
    List UIElement → List (List Char)
  | [] => []
  | e :: es =>
    collect_interactive_element original_size resized_size e ++
      collect_interactive_children original_size resized_size es

end

mutual

/-- Modelled from the spec for C6: the document-order (pre-order) traversal
of an element tree. -/
def preorder_attrs : UIElement → List UIAttrs
  | .node a children => a :: preorder_attrs_children children

/-- Pre-order traversal of a forest. -/
def preorder_attrs_children : List UIElement → List UIAttrs
  | [] => []
  | e :: es => preorder_attrs e ++ preorder_attrs_children es

end

mutual

theorem collect_elem_filter (osz rsz : Nat × Nat) (e : UIElement) :
    collect_interactive_element osz rsz e =
      (preorder_attrs e).filterMap (fun a =>
        if (a.clickable || a.scrollable) && !a.bounds.isEmpty then
          some (describe_element osz rsz a)
        else none) := by
  match e with
  | .node a children =>
    rw [collect_interactive_element, preorder_attrs, List.filterMap_cons,
      collect_children_filter osz rsz children]
    cases h : (a.clickable || a.scrollable) && !a.bounds.isEmpty <;> simp [h]

theorem collect_children_filter (osz rsz : Nat × Nat) (l : List UIElement) :
    collect_interactive_children osz rsz l =
      (preorder_attrs_children l).filterMap (fun a =>
        if (a.clickable || a.scrollable) && !a.bounds.isEmpty then
          some (describe_element osz rsz a)
        else none) := by
  match l with
  | [] =>
    rw [collect_interactive_children, preorder_attrs_children]
    rfl
  | e :: es =>
    rw [collect_interactive_children, preorder_attrs_children, List.filterMap_append,
      collect_elem_filter osz rsz e, collect_children_filter osz rsz es]

end

/-- A clickable view whose bounds string parses to the zero-area box
`[5,5][5,5]`. -/
def zero_box_attrs : UIAttrs :=
  ⟨("android.view.View").toList, [], [], [], true, false, ("[5,5][5,5]").toList⟩

/-- C6 counterexample: a clickable element whose bounding box is empty (the
well-formed bounds "[5,5][5,5]" has zero width and height) is nevertheless
listed in the compactor output, because the code only tests that the bounds
*attribute string* is non-empty, not the box itself. -/
theorem c6_empty_box_still_listed :
    collect_interactive_element (100, 100) (100, 100) (UIElement.node zero_box_attrs []) ≠ [] ∧
    parse_bounds (("[5,5][5,5]").toList) = (5, 5, 5, 5) := by
  constructor
  · rw [collect_interactive_element, collect_interactive_children]
    simp [zero_box_attrs]
  · decide

/-- C6 (amended): an element appears in the compactor's output if and only if
it is clickable or scrollable AND its bounds attribute string is non-empty,
and the output is exactly the document-order (pre-order) traversal filtered by
that test — nesting discarded, order preserved. -/
theorem c6_collect_is_preorder_filter (osz rsz : Nat × Nat) (e : UIElement) :
    collect_interactive_element osz rsz e =
      (preorder_attrs e).filterMap (fun a =>
        if (a.clickable || a.scrollable) && !a.bounds.isEmpty then
          some (describe_element osz rsz a)
        else none) :=
  collect_elem_filter osz rsz e

theorem rat_ceil_eq {q : ℚ} {z : Int} (h1 : (z : ℚ) - 1 < q) (h2 : q ≤ z) : ⌈q⌉ = z := by
  rw [Int.ceil_eq_iff]
  exact ⟨h1, h2⟩

theorem rat_floor_eq {q : ℚ} {z : Int} (h1 : (z : ℚ) ≤ q) (h2 : q < z + 1) : ⌊q⌋ = z := by
  rw [Int.floor_eq_iff]
  exact ⟨h1, h2⟩

theorem bounds_to_cell_info_zero (s : List Char) (osz rsz : Nat × Nat) (cs : Nat)
    (hpb : parse_bounds s = (0, 0, 0, 0)) :
    bounds_to_cell_info s osz rsz cs = (("[A1]").toList, ("A1").toList) := by
  unfold bounds_to_cell_info
  rw [hpb]
  have hce : ∀ r : ℚ, (⌈((0 : Nat) : ℚ) * r / cs - 1 / 2⌉ : Int) = 0 := by
    intro r
    apply rat_ceil_eq <;> push_cast <;> norm_num
  have hcf : ∀ r : ℚ, (⌊(((0 : Nat) : ℚ) + ((0 : Nat) : ℚ)) / 2 * r / cs⌋ : Int) = 0 := by
    intro r
    apply rat_floor_eq <;> push_cast <;> norm_num
  simp only [hce, hcf]
  norm_num
  decide

/-- C9: when the bounds attribute does not match the `[x1,y1][x2,y2]`
pattern, `parse_bounds` returns `(0, 0, 0, 0)` instead of failing, so a
clickable element with a malformed but non-empty bounds string is still
listed in the compactor output — with click cell "A1" and cell range "[A1]" —
and (all embedded functions being total under the stated positivity
assumptions) no exception is raised. -/
theorem c9_malformed_bounds_graceful (s : List Char) (hs : parse_bounds_match s = none)
    (osz rsz : Nat × Nat) (_ho1 : 0 < osz.1) (_ho2 : 0 < osz.2) (cs : Nat) (_hcs : 0 < cs)
    (a : UIAttrs) (hc : a.clickable = true) (hb : a.bounds = s) (hne : s ≠ []) :
    parse_bounds s = (0, 0, 0, 0) ∧
    bounds_to_cell_info s osz rsz cs = (("[A1]").toList, ("A1").toList) ∧
    collect_interactive_element osz rsz (UIElement.node a []) =
      [describe_element osz rsz a] := by
  have hpb : parse_bounds s = (0, 0, 0, 0) := by
    unfold parse_bounds
    rw [hs]
    rfl
  refine ⟨hpb, bounds_to_cell_info_zero s osz rsz cs hpb, ?_⟩
  rw [collect_interactive_element, collect_interactive_children]
  have hemp : s.isEmpty = false := by
    cases s with
    | nil => exact absurd rfl hne
    | cons c r => rfl
  simp [hc, hb, hemp]

/-- Witness for `c9_malformed_bounds_graceful`: the malformed bounds string
"garbage" on a clickable view, with screen 1080x1920 resized to 540x960 and
cell size 40. -/
theorem c9_malformed_bounds_graceful_witness :
    parse_bounds (("garbage").toList) = (0, 0, 0, 0) ∧
    bounds_to_cell_info (("garbage").toList) (1080, 1920) (540, 960) 40 =
      (("[A1]").toList, ("A1").toList) ∧
    collect_interactive_element (1080, 1920) (540, 960)
      (UIElement.node ⟨("android.widget.Button").toList, [], [], [], true, false,
        ("garbage").toList⟩ []) =
      [describe_element (1080, 1920) (540, 960)
        ⟨("android.widget.Button").toList, [], [], [], true, false, ("garbage").toList⟩] :=
  c9_malformed_bounds_graceful (("garbage").toList) (by decide) (1080, 1920) (540, 960)
    (by decide) (by decide) 40 (by decide) _ (by decide) rfl (by decide)

/-- Modelled from the spec for C7: `start = ceil(scaledMin / cellSize - 0.5)`. -/
def spec_range_start (scaled_min : ℚ) (cell_size : Nat) : Int :=
  ⌈scaled_min / cell_size - 1 / 2⌉

/-- Modelled from the spec for C7: `end = ceil(scaledMax / cellSize - 0.5) - 1`. -/
def spec_range_end (scaled_max : ℚ) (cell_size : Nat) : Int :=
  ⌈scaled_max / cell_size - 1 / 2⌉ - 1

/-- Modelled from the spec for C7: the click index along one axis — the raw,
unscaled bounding-box center, scaled once, then floor-divided by the cell
size. -/
def spec_click_index (raw_min raw_max : Nat) (scale : ℚ) (cell_size : Nat) : Int :=
  ⌊((raw_min : ℚ) + raw_max) / 2 * scale / cell_size⌋

/-- The cell-range string of the spec's words: the inclusive span
`[start, end]` with `end` clamped so that `end ≥ start`. -/
def spec_cell_range (x1 y1 x2 y2 : Nat) (sx sy : ℚ) (cs : Nat) : List Char :=
  let sc := spec_range_start ((x1 : ℚ) * sx) cs
  let sr := spec_range_start ((y1 : ℚ) * sy) cs
  let ec := max sc (spec_range_end ((x2 : ℚ) * sx) cs)
  let er := max sr (spec_range_end ((y2 : ℚ) * sy) cs)
  let start_cell := get_column_label sc.toNat ++ natStr (sr + 1).toNat
  let end_cell := get_column_label ec.toNat ++ natStr (er + 1).toNat
  if start_cell = end_cell then ("[").toList ++ start_cell ++ ("]").toList
  else ("[").toList ++ start_cell ++ (",").toList ++ end_cell ++ ("]").toList

/-- The click-cell string of the spec's words. -/
def spec_click_cell (x1 y1 x2 y2 : Nat) (sx sy : ℚ) (cs : Nat) : List Char :=
  get_column_label (spec_click_index x1 x2 sx cs).toNat ++
    natStr (spec_click_index y1 y2 sy cs + 1).toNat

/-- C7: for every bounds string and raw/display size pair, the compactor's
cell range is the inclusive span `start = ceil(scaledMin/cellSize - 0.5)`,
`end = ceil(scaledMax/cellSize - 0.5) - 1` clamped so `end ≥ start`, while
the click cell is computed from the raw, unscaled bounding-box center, scaled
once, then floor-divided by the cell size — two different rounding rules. -/
theorem c7_two_rounding_rules (s : List Char) (x1 y1 x2 y2 : Nat)
    (hp : parse_bounds s = (x1, y1, x2, y2)) (ow oh rw rh cs : Nat) :
    bounds_to_cell_info s (ow, oh) (rw, rh) cs =
      (spec_cell_range x1 y1 x2 y2 ((rw : ℚ) / ow) ((rh : ℚ) / oh) cs,
       spec_click_cell x1 y1 x2 y2 ((rw : ℚ) / ow) ((rh : ℚ) / oh) cs) := by
  unfold bounds_to_cell_info spec_cell_range spec_click_cell spec_range_start
    spec_range_end spec_click_index
  rw [hp]
  have hmax : ∀ a b : Int, (if b < a then a else b) = max a b := by
    intro a b
    by_cases h : b < a
    · rw [if_pos h, max_eq_left (le_of_lt h)]
    · rw [if_neg h, max_eq_right (le_of_not_lt h)]
  simp only [hmax]

/-- Witness for `c7_two_rounding_rules`: the bounds "[100,200][300,400]" on a
1080x1920 screen resized to 540x960 with cell size 40. -/
theorem c7_two_rounding_rules_witness :
    bounds_to_cell_info (("[100,200][300,400]").toList) (1080, 1920) (540, 960) 40 =
      (spec_cell_range 100 200 300 400 ((540 : ℚ) / 1080) ((960 : ℚ) / 1920) 40,
       spec_click_cell 100 200 300 400 ((540 : ℚ) / 1080) ((960 : ℚ) / 1920) 40) :=
  c7_two_rounding_rules (("[100,200][300,400]").toList) 100 200 300 400 (by decide)
    1080 1920 540 960 40

/-! ## tools.py -/

/-- `ToolExecutor._cell_to_device_pixels` from tools.py: the cell is first
converted to resized-image pixels with `grid_cell_to_pixels(cell, CELL_SIZE)`
(whose `ValueError` propagates: `none`), then scaled to device pixels with
`int(resized * original_size/resized_size)` when both executor size
attributes are set, else returned unscaled. -/
def cell_to_device_pixels (original_size resized_size : Option (Nat × Nat))
    (cell : List Char) : Option (Int × Int) :=
  (grid_cell_to_pixels cell CELL_SIZE).map fun p =>
    match original_size, resized_size with
    | some osz, some rsz =>
      (pyInt ((p.1 : ℚ) * ((osz.1 : ℚ) / rsz.1)),
       pyInt ((p.2 : ℚ) * ((osz.2 : ℚ) / rsz.2)))
    | _, _ => p

/-- The executor-visible effect of `Agent._act` on cell conversions: the
observation's sizes are stored on the executor once, before the loop over the
batch's tool calls, and each call converts its cell with the executor state
at that moment; `execute` never modifies the sizes, so the fold threads the
state unchanged through the batch. -/
def act_cell_conversions (obs_original obs_resized : Nat × Nat)
    (cells : List (List Char)) : List (Option (Int × Int)) :=
  let st0 : Option (Nat × Nat) × Option (Nat × Nat) := (some obs_original, some obs_resized)
  (cells.foldl
    (fun acc cell => (acc.1 ++ [cell_to_device_pixels acc.2.1 acc.2.2 cell], acc.2))
    ([], st0)).1

theorem act_fold_general (cells : List (List Char))
    (st : Option (Nat × Nat) × Option (Nat × Nat)) :
    ∀ acc : List (Option (Int × Int)),
      (cells.foldl
        (fun acc cell => (acc.1 ++ [cell_to_device_pixels acc.2.1 acc.2.2 cell], acc.2))
        (acc, st)).1 =
        acc ++ cells.map (fun cell => cell_to_device_pixels st.1 st.2 cell) := by
  induction cells with
  | nil => intro acc; simp
  | cons c rest ih =>
    intro acc
    simp only [List.foldl_cons, List.map_cons]
    rw [ih]
    simp

/-- C2 counterexample: with raw size 1080x1080 and display size 1024x1024, the
cell "E10" (display pixel x = 180) is converted to device x = 189 by the
code's `int(...)` truncation, while the claimed `round(displayX * rawW /
displayW) = round(189.84375)` is 190. -/
theorem c2_truncates_instead_of_rounding :
    cell_to_device_pixels (some (1080, 1080)) (some (1024, 1024)) (("E10").toList) =
      some (189, 400) ∧
    round ((180 : ℚ) * ((1080 : ℚ) / 1024)) = 190 ∧ (189 : Int) ≠ 190 := by
  refine ⟨?_, ?_, by decide⟩
  · have hg : grid_cell_to_pixels (("E10").toList) CELL_SIZE = some (180, 380) :=
      grid_eval_E10 _ (by decide) (by decide)
    unfold cell_to_device_pixels
    rw [hg]
    simp only [Option.map_some]
    norm_num [pyInt]
  · rw [round_eq]
    norm_num

/-- C2 (amended): within one `_act` batch the raw/display size pair is set
once from the observation and reused unchanged for every tool call, so each
conversion equals the pure function of the observation; and for every cell
whose grid pixel is `(x, y)` (non-negative), the device pixel is the
truncation `⌊displayX * rawWidth / displayWidth⌋` (floor on non-negative
values), not the rounding. -/
theorem c2_scale_fixed_per_observation :
    (∀ (o r : Nat × Nat) (cells : List (List Char)),
        act_cell_conversions o r cells =
          cells.map (fun cell => cell_to_device_pixels (some o) (some r) cell)) ∧
    (∀ (cell : List Char) (x y : Int) (ow oh rw rh : Nat),
        grid_cell_to_pixels cell CELL_SIZE = some (x, y) → 0 ≤ x → 0 ≤ y →
        cell_to_device_pixels (some (ow, oh)) (some (rw, rh)) cell =
          some (⌊(x : ℚ) * ((ow : ℚ) / rw)⌋, ⌊(y : ℚ) * ((oh : ℚ) / rh)⌋)) := by
  constructor
  · intro o r cells
    unfold act_cell_conversions
    rw [act_fold_general]
    simp
  · intro cell x y ow oh rw rh hg hx hy
    unfold cell_to_device_pixels
    rw [hg]
    simp only [Option.map_some']
    have hxq : (0 : ℚ) ≤ (x : ℚ) := by exact_mod_cast hx
    have hyq : (0 : ℚ) ≤ (y : ℚ) := by exact_mod_cast hy
    rw [pyInt_of_nonneg (mul_nonneg hxq (by positivity)),
      pyInt_of_nonneg (mul_nonneg hyq (by positivity))]

/-- Witness for `c2_scale_fixed_per_observation`: the cell "E10" with raw
size 1080x1080 and display size 1024x1024. -/
theorem c2_scale_fixed_per_observation_witness :
    cell_to_device_pixels (some (1080, 1080)) (some (1024, 1024)) (("E10").toList) =
      some (⌊(180 : ℚ) * ((1080 : ℚ) / 1024)⌋, ⌊(380 : ℚ) * ((1080 : ℚ) / 1024)⌋) :=
  c2_scale_fixed_per_observation.2 (("E10").toList) 180 380 1080 1080 1024 1024
    (grid_eval_E10 _ (by decide) (by decide)) (by norm_num) (by norm_num)

/-! ## agent.py: the run loop (C4) -/

/-- The sentinel prefix `"TASK_COMPLETE:"` tested by `_act`. -/
def taskCompletePre : List Char := ("TASK_COMPLETE:").toList

/-- The sentinel prefix with trailing space removed by `_act`'s `replace`. -/
def taskCompletePreSp : List Char := ("TASK_COMPLETE: ").toList

/-- The sentinel prefix `"TASK_IMPOSSIBLE:"` tested by `_act`. -/
def taskImpossiblePre : List Char := ("TASK_IMPOSSIBLE:").toList

/-- The sentinel prefix with trailing space removed by `_act`'s `replace`. -/
def taskImpossiblePreSp : List Char := ("TASK_IMPOSSIBLE: ").toList

/-- Python `s.replace(pat, rep)` — left-to-right, non-overlapping — with a
structural fuel argument; each step consumes at least one character of `s`,
so `s.length` steps always suffice.  (The callers here always pass a
non-empty `pat`.) -/
def pyReplaceAux (pat rep : List Char) : Nat → List Char → List Char
  | _, [] => []
  | 0, c :: rest => c :: rest
  | fuel + 1, c :: rest =>
    if pat ≠ [] ∧ pat.isPrefixOf (c :: rest) then
      rep ++ pyReplaceAux pat rep fuel ((c :: rest).drop pat.length)
    else
      c :: pyReplaceAux pat rep fuel rest

/-- Python `s.replace(pat, rep)`. -/
def pyReplace (pat rep s : List Char) : List Char := pyReplaceAux pat rep s.length s

/-- One dispatched tool call of an `_act` batch, as far as the run loop can
observe it: the two sentinel tools carry their argument, every other tool
carries the result string `_act` records for it (including error text for
failed executions). -/
inductive ToolCall where
  | task_complete (summary : List Char)
  | task_impossible (reason : List Char)
  | other (name : List Char) (result : List Char)
deriving DecidableEq

/-- The result string produced for a call: `_task_complete` returns
`"TASK_COMPLETE: " + summary`, `_task_impossible` returns
`"TASK_IMPOSSIBLE: " + reason`. -/
def tool_result : ToolCall → List Char
  | .task_complete s => taskCompletePreSp ++ s
  | .task_impossible r => taskImpossiblePreSp ++ r
  | .other _ r => r

/-- Which sentinel fired (the branch of `_act` that set `_task_finished`). -/
inductive Sentinel where
  | complete
  | impossible
deriving DecidableEq

/-- The `_task_finished`/`_task_result` update `Agent._act` performs over a
batch: a result starting with `"TASK_COMPLETE:"` sets the state to the
result with `"TASK_COMPLETE: "` occurrences removed (`str.replace`), likewise
for impossible; later calls overwrite earlier ones; any other result leaves
the state unchanged. -/
def act_update (st : Option (Sentinel × List Char)) (calls : List ToolCall) :
    Option (Sentinel × List Char) :=
  calls.foldl
    (fun acc c =>
      let r := tool_result c
      if taskCompletePre.isPrefixOf r then
        some (Sentinel.complete, pyReplace taskCompletePreSp [] r)
      else if taskImpossiblePre.isPrefixOf r then
        some (Sentinel.impossible, pyReplace taskImpossiblePreSp [] r)
      else acc)
    st

/-- How `Agent.run` ends. -/
inductive RunOutcome where
  | finished (state : Sentinel) (msg : List Char)
  | max_iterations (msg : List Char)
deriving DecidableEq

/-- The message `f"Max iterations ({self.max_iterations}) reached without
completion"`. -/
def max_iterations_msg (n : Nat) : List Char :=
  ("Max iterations (").toList ++ natStr n ++ (") reached without completion").toList

/-- The iteration loop of `Agent.run` over the remaining iteration indices.
`_task_finished` is reset before the loop and checked right after each
`_act`; since the loop returns as soon as it is set, every iteration starts
with a clear flag (`none`).  On finishing it returns
`self._task_result or "Task completed"` (the fallback replaces an empty
result); after the last index it returns the max-iterations message. -/
def run_go (trace : Nat → List ToolCall) (maxIter : Nat) : List Nat → RunOutcome
  | [] => .max_iterations (max_iterations_msg maxIter)
  | i :: rest =>
    match act_update none (trace i) with
    | some (sen, msg) =>
      .finished sen (if msg = [] then ("Task completed").toList else msg)
    | none => run_go trace maxIter rest

/-- `Agent.run` on a deterministic trace assigning each iteration (0-based)
its batch of dispatched tool calls. -/
def agent_run (trace : Nat → List ToolCall) (maxIter : Nat) : RunOutcome :=
  run_go trace maxIter (List.range maxIter)

/-- C4 counterexample: dispatching `task_complete` with the empty summary
`X = ""` terminates the run in the Complete state, but the run returns the
fallback "Task completed" rather than `X`: `return self._task_result or
"Task completed"` replaces the falsy empty summary. -/
theorem c4_empty_summary_not_returned :
    agent_run (fun _ => [ToolCall.task_complete []]) 1 =
      RunOutcome.finished Sentinel.complete (("Task completed").toList) ∧
    ("Task completed").toList ≠ ([] : List Char) := by
  constructor
  · decide
  · decide

theorem isPrefixOf_append_self : ∀ p s : List Char, p.isPrefixOf (p ++ s) = true := by
  intro p s
  induction p with
  | nil => cases s <;> rfl
  | cons a rest ih => simp [List.isPrefixOf, ih]

theorem pyReplaceAux_no_occurrence (pat rep : List Char) :
    ∀ (fuel : Nat) (s : List Char), containsSub pat s = false →
      pyReplaceAux pat rep fuel s = s := by
  intro fuel
  induction fuel with
  | zero =>
    intro s _
    cases s with
    | nil => rfl
    | cons c rest => rfl
  | succ f ih =>
    intro s hs
    cases s with
    | nil => rfl
    | cons c rest =>
      rw [containsSub, Bool.or_eq_false_iff] at hs
      rw [pyReplaceAux, if_neg]
      · rw [ih rest hs.2]
      · rintro ⟨-, hpre⟩
        rw [hs.1] at hpre
        exact absurd hpre (by simp)

theorem pyReplace_strip (pat rep X : List Char) (hp : pat ≠ [])
    (hX : containsSub pat X = false) :
    pyReplace pat rep (pat ++ X) = rep ++ X := by
  obtain ⟨p, pt, rfl⟩ : ∃ p pt, pat = p :: pt := by
    cases pat with
    | nil => exact absurd rfl hp
    | cons p pt => exact ⟨p, pt, rfl⟩
  show pyReplaceAux _ rep (((p :: pt) ++ X).length) (p :: (pt ++ X)) = rep ++ X
  rw [show ((p :: pt) ++ X).length = (pt ++ X).length + 1 by simp]
  rw [pyReplaceAux, if_pos ⟨hp, isPrefixOf_append_self (p :: pt) X⟩]
  rw [show ((p :: (pt ++ X)).drop (p :: pt).length) = X by
    show ((p :: pt) ++ X).drop (p :: pt).length = X
    exact List.drop_left (p :: pt) X]
  rw [pyReplaceAux_no_occurrence _ rep _ X hX]

/-- A batch none of whose results triggers a sentinel branch of `_act`. -/
def no_sentinel (calls : List ToolCall) : Prop :=
  ∀ c ∈ calls, taskCompletePre.isPrefixOf (tool_result c) = false ∧
    taskImpossiblePre.isPrefixOf (tool_result c) = false

instance (calls : List ToolCall) : Decidable (no_sentinel calls) := by
  unfold no_sentinel
  infer_instance

theorem act_update_no_sentinel (calls : List ToolCall) (h : no_sentinel calls) :
    ∀ st, act_update st calls = st := by
  induction calls with
  | nil => intro st; rfl
  | cons c rest ih =>
    intro st
    have hc := h c (by simp)
    unfold act_update
    rw [List.foldl_cons]
    simp only [hc.1, hc.2]
    rw [if_neg (by simp), if_neg (by simp)]
    exact ih (fun d hd => h d (by simp [hd])) st

theorem exists_concat_of_getLast {α : Type} :
    ∀ (l : List α) (c : α), l.getLast? = some c → ∃ init, l = init ++ [c] := by
  intro l
  induction l with
  | nil =>
    intro c h
    simp [List.getLast?] at h
  | cons a rest ih =>
    intro c h
    cases rest with
    | nil =>
      simp [List.getLast?] at h
      exact ⟨[], by rw [h]; rfl⟩
    | cons b r =>
      rw [List.getLast?_cons_cons] at h
      obtain ⟨init, hi⟩ := ih c h
      exact ⟨a :: init, by rw [List.cons_append, hi]⟩

theorem act_update_last_complete (init : List ToolCall) (X : List Char)
    (hX2 : containsSub taskCompletePreSp X = false) (st : Option (Sentinel × List Char)) :
    act_update st (init ++ [ToolCall.task_complete X]) = some (Sentinel.complete, X) := by
  unfold act_update
  rw [List.foldl_append]
  simp only [List.foldl_cons, List.foldl_nil, tool_result]
  have hpre : taskCompletePre.isPrefixOf (taskCompletePreSp ++ X) = true := by
    rw [show taskCompletePreSp ++ X = taskCompletePre ++ (' ' :: X) from rfl]
    exact isPrefixOf_append_self taskCompletePre (' ' :: X)
  rw [if_pos hpre, pyReplace_strip taskCompletePreSp [] X (by decide) hX2]
  rfl

theorem isPrefixOf_append_cons_ne (p : List Char) (a b : Char) (as bs : List Char)
    (h : a ≠ b) : (p ++ a :: as).isPrefixOf (p ++ b :: bs) = false := by
  induction p with
  | nil =>
    show (a :: as).isPrefixOf (b :: bs) = false
    simp [List.isPrefixOf, h]
  | cons p0 rest ih => simp [List.isPrefixOf, ih]

theorem complete_not_prefix_of_impossible (Y : List Char) :
    taskCompletePre.isPrefixOf (taskImpossiblePreSp ++ Y) = false := by
  rw [show taskCompletePre = ("TASK_").toList ++ ('C' :: ("OMPLETE:").toList) from rfl,
    show taskImpossiblePreSp ++ Y =
      ("TASK_").toList ++ ('I' :: (("MPOSSIBLE: ").toList ++ Y)) from rfl]
  exact isPrefixOf_append_cons_ne _ _ _ _ _ (by decide)

theorem act_update_last_impossible (init : List ToolCall) (Y : List Char)
    (hY2 : containsSub taskImpossiblePreSp Y = false) (st : Option (Sentinel × List Char)) :
    act_update st (init ++ [ToolCall.task_impossible Y]) = some (Sentinel.impossible, Y) := by
  unfold act_update
  rw [List.foldl_append]
  simp only [List.foldl_cons, List.foldl_nil, tool_result]
  have hpre : taskImpossiblePre.isPrefixOf (taskImpossiblePreSp ++ Y) = true := by
    rw [show taskImpossiblePreSp ++ Y = taskImpossiblePre ++ (' ' :: Y) from rfl]
    exact isPrefixOf_append_self taskImpossiblePre (' ' :: Y)
  rw [if_neg (by rw [complete_not_prefix_of_impossible Y]; simp), if_pos hpre,
    pyReplace_strip taskImpossiblePreSp [] Y (by decide) hY2]
  rfl

theorem run_go_skip (trace : Nat → List ToolCall) (maxIter : Nat) (l1 l2 : List Nat)
    (h : ∀ j ∈ l1, no_sentinel (trace j)) :
    run_go trace maxIter (l1 ++ l2) = run_go trace maxIter l2 := by
  induction l1 with
  | nil => rfl
  | cons i rest ih =>
    rw [List.cons_append, run_go, act_update_no_sentinel (trace i) (h i (by simp)) none]
    exact ih (fun j hj => h j (by simp [hj]))

theorem range_split (N i : Nat) (h : i ≤ N) :
    List.range N = List.range' 0 i ++ List.range' i (N - i) := by
  have h1 : List.range' 0 i ++ List.range' (0 + 1 * i) (N - i) =
      List.range' 0 ((N - i) + i) := List.range'_append 0 i (N - i) 1
  rw [List.range_eq_range']
  rw [show (N - i) + i = N by omega] at h1
  simpa using h1.symm

/-- C4 (amended): a batch whose tool-call sequence ends in
`task_complete(summary=X)` with `X` non-empty and not containing the literal
`"TASK_COMPLETE: "` makes the run terminate in the Complete state returning
`X` (an empty `X` falls back to "Task completed", and `replace` would strip
embedded occurrences of the sentinel prefix); likewise `task_impossible`
terminates in the Impossible state returning the reason; and when no result
of any iteration triggers a sentinel, the run ends in MaxIterationsReached
with the max-iterations notice — never a silent stop. -/
theorem c4_sentinel_termination :
    (∀ (trace : Nat → List ToolCall) (N i : Nat) (X : List Char),
        i < N → (∀ j, j < i → no_sentinel (trace j)) →
        (trace i).getLast? = some (ToolCall.task_complete X) →
        X ≠ [] → containsSub taskCompletePreSp X = false →
        agent_run trace N = RunOutcome.finished Sentinel.complete X) ∧
    (∀ (trace : Nat → List ToolCall) (N i : Nat) (Y : List Char),
        i < N → (∀ j, j < i → no_sentinel (trace j)) →
        (trace i).getLast? = some (ToolCall.task_impossible Y) →
        Y ≠ [] → containsSub taskImpossiblePreSp Y = false →
        agent_run trace N = RunOutcome.finished Sentinel.impossible Y) ∧
    (∀ (trace : Nat → List ToolCall) (N : Nat),
        (∀ j, j < N → no_sentinel (trace j)) →
        agent_run trace N = RunOutcome.max_iterations (max_iterations_msg N)) := by
  refine ⟨?_, ?_, ?_⟩
  · intro trace N i X hiN hbefore hlast hX1 hX2
    obtain ⟨init, hinit⟩ := exists_concat_of_getLast _ _ hlast
    unfold agent_run
    rw [range_split N i (le_of_lt hiN),
      run_go_skip _ _ _ _ (fun j hj => hbefore j (by
        have := List.mem_range'_1.mp hj
        omega)),
      show List.range' i (N - i) = i :: List.range' (i + 1) (N - i - 1) by
        rw [show N - i = (N - i - 1) + 1 by omega]
        rfl,
      run_go, hinit, act_update_last_complete init X hX2 none]
    simp only []
    rw [if_neg hX1]
  · intro trace N i Y hiN hbefore hlast hY1 hY2
    obtain ⟨init, hinit⟩ := exists_concat_of_getLast _ _ hlast
    unfold agent_run
    rw [range_split N i (le_of_lt hiN),
      run_go_skip _ _ _ _ (fun j hj => hbefore j (by
        have := List.mem_range'_1.mp hj
        omega)),
      show List.range' i (N - i) = i :: List.range' (i + 1) (N - i - 1) by
        rw [show N - i = (N - i - 1) + 1 by omega]
        rfl,
      run_go, hinit, act_update_last_impossible init Y hY2 none]
    simp only []
    rw [if_neg hY1]
  · intro trace N h
    unfold agent_run
    rw [show List.range N = List.range N ++ [] by simp,
      run_go_skip _ _ _ _ (fun j hj => h j (List.mem_range.mp hj))]
    rfl

/-- Witness for `c4_sentinel_termination`: three concrete two-iteration
traces — one ending in `task_complete("Opened the app")`, one ending in
`task_impossible("No network")`, and one that never calls a sentinel. -/
theorem c4_sentinel_termination_witness :
    agent_run
        (fun j => if j = 0 then [ToolCall.other (("tap").toList) (("Tapped").toList)]
          else [ToolCall.task_complete (("Opened the app").toList)]) 3 =
      RunOutcome.finished Sentinel.complete (("Opened the app").toList) ∧
    agent_run (fun _ => [ToolCall.task_impossible (("No network").toList)]) 2 =
      RunOutcome.finished Sentinel.impossible (("No network").toList) ∧
    agent_run (fun _ => [ToolCall.other (("wait").toList) (("Waited 2 seconds").toList)]) 2 =
      RunOutcome.max_iterations (max_iterations_msg 2) :=
  ⟨c4_sentinel_termination.1 _ 3 1 _ (by decide) (by decide) (by decide) (by decide) (by decide),
   c4_sentinel_termination.2.1 _ 2 0 _ (by decide) (by decide) (by decide) (by decide) (by decide),
   c4_sentinel_termination.2.2 _ 2 (by decide)⟩

/-! ## agent.py: the rate-limit retry loop (C8) -/

/-- The literal part of the backoff regex `r"try again in ([\d.]+)s"`. -/
def tryAgainLit : List Char := ("try again in ").toList

/-- A character of the regex class `[\d.]`. -/
def wait_char (c : Char) : Bool := c.isDigit || c = '.'

/-- `re.search(r"try again in ([\d.]+)s", msg)`: the leftmost position where
the literal is followed by a non-empty maximal run of digits/dots followed by
's' yields the group (the greedy group cannot backtrack, because 's' is not
in the class); scanning advances one character on failure. -/
def find_suggested : List Char → Option (List Char)
  | [] => none
  | c :: rest =>
    if tryAgainLit.isPrefixOf (c :: rest) then
      let after := (c :: rest).drop tryAgainLit.length
      let run := after.takeWhile wait_char
      if run ≠ [] ∧ (after.drop run.length).head? = some 's' then some run
      else find_suggested rest
    else find_suggested rest

/-- Python `float()` on a `[\d.]+` group: defined when the group has at most
one dot and at least one digit, and then exact as a rational (the arguments
fed to it here consist of digits and dots only). `none` models the
`ValueError` `float()` would raise. -/
def py_float (s : List Char) : Option ℚ :=
  if s.count '.' ≤ 1 ∧ s.any Char.isDigit then
    let ip := s.takeWhile Char.isDigit
    let fp := (s.drop ip.length).drop 1
    some ((digits_to_nat ip : ℚ) + (digits_to_nat fp : ℚ) / 10 ^ fp.length)
  else none

/-- The backoff wait `_think` sleeps at a given attempt for a given
rate-limit error text: the provider-suggested seconds plus one when the
regex matches (`float(...) + 1`), otherwise `base_delay * 2 ** attempt` with
`base_delay = 5`; `none` models `float()` raising on an unparsable group. -/
def retry_wait (attempt : Nat) (msg : List Char) : Option ℚ :=
  match find_suggested msg with
  | none => some (5 * 2 ^ attempt)
  | some run => (py_float run).map (fun q => q + 1)

/-- One attempt's outcome inside `_think`'s loop: the completion call
succeeds, raises `litellm.RateLimitError` with the given message, or raises
any other exception. -/
inductive AttemptOutcome where
  | success
  | rate_limit (msg : List Char)
  | other_error
deriving DecidableEq

/-- How `_think` ends, with the list of backoff sleeps it performed (the
fixed 2-second pre-request pacing sleep is not part of the backoff). -/
inductive ThinkResult where
  | ok (sleeps : List ℚ)
  | rate_limit_fatal (sleeps : List ℚ)
  | other_fatal (sleeps : List ℚ)
  | float_error (sleeps : List ℚ)
deriving DecidableEq

/-- `_think`'s `for attempt in range(max_retries + 1)` loop body: success
returns, a non-rate-limit exception re-raises immediately, and a rate limit
re-raises at `attempt == max_retries`, else sleeps the retry wait and
continues.  (The empty-list case is unreachable: the loop always returns or
raises at the last attempt.) -/
def think_go (outcomes : Nat → AttemptOutcome) (max_retries : Nat) :
    List Nat → List ℚ → ThinkResult
  | [], sleeps => .other_fatal sleeps
  | a :: rest, sleeps =>
    match outcomes a with
    | .success => .ok sleeps
    | .other_error => .other_fatal sleeps
    | .rate_limit msg =>
      if a = max_retries then .rate_limit_fatal sleeps
      else
        match retry_wait a msg with
        | some w => think_go outcomes max_retries rest (sleeps ++ [w])
        | none => .float_error sleeps

/-- `Agent._think`'s retry loop: `max_retries = 3`, attempts 0..3. -/
def agent_think (outcomes : Nat → AttemptOutcome) : ThinkResult :=
  think_go outcomes 3 (List.range 4) []

theorem think_go_rl (outcomes : Nat → AttemptOutcome) (m : Nat → List Char) (ws : Nat → ℚ)
    (l1 l2 : List Nat)
    (h : ∀ a ∈ l1, outcomes a = AttemptOutcome.rate_limit (m a) ∧ a ≠ 3 ∧
      retry_wait a (m a) = some (ws a)) :
    ∀ sleeps, think_go outcomes 3 (l1 ++ l2) sleeps =
      think_go outcomes 3 l2 (sleeps ++ l1.map ws) := by
  induction l1 with
  | nil => intro sleeps; simp
  | cons a rest ih =>
    intro sleeps
    obtain ⟨h1, h2, h3⟩ := h a (by simp)
    rw [List.cons_append, think_go, h1]
    simp only [if_neg h2, h3]
    rw [ih (fun b hb => h b (by simp [hb])) (sleeps ++ [ws a])]
    simp

/-- The outcome trace of the C8 counterexample: one rate-limit failure whose
error text suggests waiting 7 seconds, then success. -/
def c8_outcomes : Nat → AttemptOutcome := fun a =>
  if a = 0 then AttemptOutcome.rate_limit (("Rate limit reached, try again in 7s").toList)
  else AttemptOutcome.success

/-- C8 counterexample: on the rate-limit message "… try again in 7s" the code
sleeps `float("7") + 1 = 8` seconds, not the provider's suggested 7. -/
theorem c8_sleeps_suggested_plus_one :
    agent_think c8_outcomes = ThinkResult.ok [8] ∧ (8 : ℚ) ≠ 7 := by
  constructor
  · have hf : find_suggested (("Rate limit reached, try again in 7s").toList) =
        some (("7").toList) := by decide
    have hpf : py_float (("7").toList) = some 7 := by
      unfold py_float
      rw [if_pos (by decide)]
      simp only []
      rw [show ((("7").toList).takeWhile Char.isDigit) = ("7").toList from by decide]
      rw [show ((("7").toList).drop (("7").toList).length).drop 1 = [] from by decide]
      rw [show digits_to_nat (("7").toList) = 7 from by decide,
        show digits_to_nat ([] : List Char) = 0 from rfl]
      norm_num
    have hw : retry_wait 0 (("Rate limit reached, try again in 7s").toList) = some 8 := by
      unfold retry_wait
      rw [hf]
      show Option.map (fun q => q + 1) (py_float (("7").toList)) = some 8
      rw [hpf]
      show some ((7 : ℚ) + 1) = some 8
      norm_num
    have h0 : c8_outcomes 0 =
        AttemptOutcome.rate_limit (("Rate limit reached, try again in 7s").toList) := rfl
    have h1 : c8_outcomes 1 = AttemptOutcome.success := rfl
    unfold agent_think
    rw [show List.range 4 = 0 :: [1, 2, 3] from rfl, think_go]
    simp only [h0]
    rw [if_neg (by decide), hw]
    show think_go c8_outcomes 3 [1, 2, 3] ([] ++ [8]) = ThinkResult.ok [8]
    rw [think_go]
    simp only [h1]
    rfl
  · norm_num

/-- C8 (amended): on rate-limit failures the loop retries up to 3 times
(4 attempts), sleeping `retry_wait` between attempts — the provider's
suggested wait *plus one second* when the error text carries one, else
`base_delay * 2 ** attempt` with base 5; a rate limit at the last attempt
re-raises after the 3 backoff sleeps (fatal), and a non-rate-limit error is
immediately fatal with no further sleep or retry. -/
theorem c8_retry_schedule :
    (∀ (outcomes : Nat → AttemptOutcome) (m : Nat → List Char) (ws : Nat → ℚ) (k : Nat),
        k ≤ 3 →
        (∀ a, a < k → outcomes a = AttemptOutcome.rate_limit (m a)) →
        (∀ a, a < k → retry_wait a (m a) = some (ws a)) →
        outcomes k = AttemptOutcome.success →
        agent_think outcomes = ThinkResult.ok ((List.range k).map ws)) ∧
    (∀ (outcomes : Nat → AttemptOutcome) (m : Nat → List Char) (ws : Nat → ℚ),
        (∀ a, a ≤ 3 → outcomes a = AttemptOutcome.rate_limit (m a)) →
        (∀ a, a < 3 → retry_wait a (m a) = some (ws a)) →
        agent_think outcomes = ThinkResult.rate_limit_fatal ((List.range 3).map ws)) ∧
    (∀ (outcomes : Nat → AttemptOutcome) (m : Nat → List Char) (ws : Nat → ℚ) (k : Nat),
        k ≤ 3 →
        (∀ a, a < k → outcomes a = AttemptOutcome.rate_limit (m a)) →
        (∀ a, a < k → retry_wait a (m a) = some (ws a)) →
        outcomes k = AttemptOutcome.other_error →
        agent_think outcomes = ThinkResult.other_fatal ((List.range k).map ws)) ∧
    (∀ msg : List Char, find_suggested msg = none →
        ∀ a : Nat, retry_wait a msg = some (5 * 2 ^ a)) := by
  have key : ∀ (outcomes : Nat → AttemptOutcome) (m : Nat → List Char) (ws : Nat → ℚ)
      (k : Nat), k ≤ 3 →
      (∀ a, a < k → outcomes a = AttemptOutcome.rate_limit (m a)) →
      (∀ a, a < k → retry_wait a (m a) = some (ws a)) →
      agent_think outcomes = think_go outcomes 3 (List.range' k (4 - k))
        ((List.range k).map ws) := by
    intro outcomes m ws k hk hrl hws
    unfold agent_think
    rw [show (4 : Nat) = 4 from rfl, range_split 4 k (by omega),
      think_go_rl outcomes m ws _ _ (fun a ha => by
        have hb := List.mem_range'_1.mp ha
        exact ⟨hrl a (by omega), by omega, hws a (by omega)⟩) []]
    rw [List.nil_append, List.range_eq_range']
  refine ⟨?_, ?_, ?_, ?_⟩
  · intro outcomes m ws k hk hrl hws hsucc
    rw [key outcomes m ws k hk hrl hws,
      show List.range' k (4 - k) = k :: List.range' (k + 1) (3 - k) by
        rw [show 4 - k = (3 - k) + 1 by omega]
        rfl,
      think_go, hsucc]
  · intro outcomes m ws hrl hws
    rw [key outcomes m ws 3 (by omega) (fun a ha => hrl a (by omega)) hws,
      show List.range' 3 (4 - 3) = [3] from rfl, think_go, hrl 3 (by omega)]
    simp
  · intro outcomes m ws k hk hrl hws hother
    rw [key outcomes m ws k hk hrl hws,
      show List.range' k (4 - k) = k :: List.range' (k + 1) (3 - k) by
        rw [show 4 - k = (3 - k) + 1 by omega]
        rfl,
      think_go, hother]
  · intro msg h a
    unfold retry_wait
    rw [h]

/-- The outcome trace of the C8 witness: two rate-limit failures with no
suggested wait in the text, then success. -/
def c8_witness_outcomes : Nat → AttemptOutcome := fun a =>
  if a < 2 then AttemptOutcome.rate_limit (("slow down").toList) else AttemptOutcome.success

/-- Witness for `c8_retry_schedule`: two rate-limit failures with no
suggested wait, then success — the loop returns the success having slept the
exponential schedule `[5 * 2 ^ 0, 5 * 2 ^ 1]`. -/
theorem c8_retry_schedule_witness :
    agent_think c8_witness_outcomes =
      ThinkResult.ok ((List.range 2).map (fun a => 5 * 2 ^ a)) :=
  c8_retry_schedule.1 c8_witness_outcomes (fun _ => ("slow down").toList)
    (fun a => 5 * 2 ^ a) 2 (by omega) (fun a ha => by
      unfold c8_witness_outcomes
      rw [if_pos ha])
    (fun a _ => c8_retry_schedule.2.2.2 (("slow down").toList) (by decide) a)
    (by decide)

/-! ## agent.py: history pruning (C3) -/

/-- One content item of a vision message (`{"type": "text", ...}` or
`{"type": "image_url", ...}`). -/
inductive MsgItem where
  | text (t : List Char)
  | image
deriving DecidableEq

/-- A message's content: a plain string or a list of items. -/
inductive MsgContent where
  | str (t : List Char)
  | items (l : List MsgItem)
deriving DecidableEq

/-- One entry of `self.message_history`. -/
structure ChatMessage where
  role : List Char
  content : MsgContent
deriving DecidableEq

/-- `item.get("type") == "image_url"`. -/
def item_is_image : MsgItem → Bool
  | .image => true
  | .text _ => false

/-- `isinstance(msg["content"], list) and any(item["type"] == "image_url")`. -/
def has_image (m : ChatMessage) : Bool :=
  match m.content with
  | .items l => l.any item_is_image
  | .str _ => false

/-- The number of image-bearing messages of a history. -/
def count_images (ms : List ChatMessage) : Nat := ms.countP has_image

/-- The split separator `"\n\nUI Hierarchy:"`. -/
def hierSep : List Char := ("\n\nUI Hierarchy:").toList

/-- The containment test string `"UI Hierarchy:"`. -/
def hierMarker : List Char := ("UI Hierarchy:").toList

/-- `text.split(pat)[0]` for a non-empty `pat`: the characters before the
first occurrence, the whole string when there is none. -/
def take_before (pat : List Char) : List Char → List Char
  | [] => []
  | c :: rest => if pat.isPrefixOf (c :: rest) then [] else c :: take_before pat rest

/-- The hierarchy stripping `_manage_history` applies to a text item of an
older image-bearing message: when `"UI Hierarchy:" in text`, keep
`text.split("\n\nUI Hierarchy:")[0]` and append the removal note. -/
def strip_hier_text (t : List Char) : List Char :=
  if containsSub hierMarker t then
    take_before hierSep t ++ ("\n[UI hierarchy removed from history]").toList
  else t

/-- Item-wise stripping (image items are untouched). -/
def strip_hier_item : MsgItem → MsgItem
  | .text t => .text (strip_hier_text t)
  | .image => .image

/-- The in-place mutation of the `elif image_count > 1` branch. -/
def strip_hier_message (m : ChatMessage) : ChatMessage :=
  match m.content with
  | .items l => ⟨m.role, .items (l.map strip_hier_item)⟩
  | .str t => ⟨m.role, .str t⟩

/-- The surviving text fragments collected by the conversion branch: each
text item, hierarchy-stripped when it contains the marker; image items are
dropped. -/
def degraded_text_parts (l : List MsgItem) : List (List Char) :=
  l.filterMap (fun it =>
    match it with
    | .text t => some (if containsSub hierMarker t then take_before hierSep t else t)
    | .image => none)

/-- The degradation marker appended by the conversion branch. -/
def screenshotRemovedMarker : List Char :=
  (" [Screenshot removed for history management]").toList

/-- The text-only conversion of the `image_count > max_images` branch:
`" ".join(text_parts) + " [Screenshot removed for history management]"`. -/
def convert_message (m : ChatMessage) : ChatMessage :=
  match m.content with
  | .items l =>
    ⟨m.role, .str (List.intercalate ((" ").toList) (degraded_text_parts l) ++
      screenshotRemovedMarker)⟩
  | .str t => ⟨m.role, .str t⟩

/-- What `_manage_history` does to one image-bearing message whose running
image count (counted from the end, inclusive) is `c`. -/
def manage_message (k c : Nat) (m : ChatMessage) : ChatMessage :=
  if c > k then convert_message m
  else if c > 1 then strip_hier_message m
  else m

/-- `Agent._manage_history` with `max_images = k`: the backward in-place pass
is equivalent to transforming each image-bearing message according to the
number of image-bearing messages from it to the end of the history (each
message's count is accumulated before its own mutation, and mutations of
later messages never affect the counting of earlier ones). -/
def manage_history (k : Nat) : List ChatMessage → List ChatMessage
  | [] => []
  | m :: rest =>
    (if has_image m then manage_message k (count_images rest + 1) m else m) ::
      manage_history k rest

/-- `last_col_letter` of `_think` (line 208): `chr(ord('A') + cols - 1)` for
`cols ≤ 26`, else `"Z+"`. -/
def last_col_letter (cols : Nat) : List Char :=
  if cols ≤ 26 then [Char.ofNat (65 + cols - 1)] else ("Z+").toList

/-- The grid-info line of the vision message text (`text_parts[0]`). -/
def grid_line (cols rows : Nat) : List Char :=
  ("Current screen with ").toList ++ natStr cols ++ ("x").toList ++ natStr rows ++
    (" grid (columns A-").toList ++ last_col_letter cols ++ (", rows 1-").toList ++
    natStr rows ++ (").").toList

/-- The joined `text_parts` of `_think`'s vision message: grid line, the
optional UI-hierarchy block, and the closing question. -/
def vision_text (cols rows : Nat) (hier : Option (List Char)) : List Char :=
  grid_line cols rows ++
    (match hier with
     | some h => hierSep ++ ("\n```\n").toList ++ h ++ ("\n```").toList
     | none => []) ++
    ("\nWhat action should I take next?").toList

/-- The vision message `_think` appends: one text item and one image item. -/
def vision_message (cols rows : Nat) (hier : Option (List Char)) : ChatMessage :=
  ⟨("user").toList, .items [.text (vision_text cols rows hier), .image]⟩

/-- An item carrying the `"UI Hierarchy:"` marker. -/
def item_marked : MsgItem → Bool
  | .text t => containsSub hierMarker t
  | .image => false

/-- A message carrying the `"UI Hierarchy:"` marker in some text. -/
def msg_marked (m : ChatMessage) : Bool :=
  match m.content with
  | .str t => containsSub hierMarker t
  | .items l => l.any item_marked

/-- The `getD` default used in the positional statements. -/
def default_message : ChatMessage := ⟨[], .str []⟩

theorem has_image_convert (m : ChatMessage) : has_image (convert_message m) = false := by
  unfold convert_message has_image
  cases h : m.content <;> simp

theorem has_image_strip (m : ChatMessage) : has_image (strip_hier_message m) = has_image m := by
  unfold strip_hier_message has_image
  cases h : m.content with
  | str t => simp
  | items l =>
    simp only [List.any_map]
    congr 1
    funext it
    cases it <;> rfl

theorem has_image_vision (cols rows : Nat) (hier : Option (List Char)) :
    has_image (vision_message cols rows hier) = true := rfl

theorem count_images_cons (m : ChatMessage) (rest : List ChatMessage) :
    count_images (m :: rest) = count_images rest + if has_image m then 1 else 0 :=
  List.countP_cons _ _ _

theorem manage_history_length (k : Nat) (ms : List ChatMessage) :
    (manage_history k ms).length = ms.length := by
  induction ms with
  | nil => rfl
  | cons m rest ih => simp [manage_history, ih]

theorem has_image_manage_message (k c : Nat) (m : ChatMessage) :
    has_image (manage_message k c m) = if c > k then false else has_image m := by
  unfold manage_message
  by_cases h1 : c > k
  · simp [h1, has_image_convert]
  · by_cases h2 : c > 1 <;> simp [h1, h2, has_image_strip]

theorem count_images_manage (k : Nat) (ms : List ChatMessage) :
    count_images (manage_history k ms) = min k (count_images ms) := by
  induction ms with
  | nil => simp [manage_history, count_images]
  | cons m rest ih =>
    rw [manage_history]
    by_cases h : has_image m = true
    · rw [if_pos h, count_images_cons, count_images_cons, ih,
        has_image_manage_message, h, if_pos rfl]
      by_cases hk : count_images rest + 1 > k
      · rw [if_pos hk]
        simp only [Bool.false_eq_true, if_false]
        rw [min_eq_left (by omega : k ≤ count_images rest),
          min_eq_left (by omega : k ≤ count_images rest + 1)]
        omega
      · rw [if_neg hk]
        simp only [if_pos rfl]
        rw [min_eq_right (by omega : count_images rest ≤ k),
          min_eq_right (by omega : count_images rest + 1 ≤ k)]
        simp
    · rw [if_neg h, count_images_cons, count_images_cons, ih]
      have h' : has_image m = false := by
        cases hh : has_image m
        · rfl
        · exact absurd hh h
      rw [h']
      simp

theorem natStrAux_digits :
    ∀ (fuel n : Nat), ∀ c ∈ natStrAux fuel n, 48 ≤ c.toNat ∧ c.toNat ≤ 57 := by
  intro fuel
  induction fuel with
  | zero =>
    intro n c hc
    simp [natStrAux] at hc
  | succ f ih =>
    intro n c hc
    by_cases h : n < 10
    · rw [natStrAux, if_pos h] at hc
      simp at hc
      subst hc
      interval_cases n <;> decide
    · rw [natStrAux, if_neg h] at hc
      rw [List.mem_append] at hc
      rcases hc with hc | hc
      · exact ih (n / 10) c hc
      · simp at hc
        subst hc
        have hm : n % 10 < 10 := Nat.mod_lt _ (by omega)
        generalize n % 10 = m at hm ⊢
        interval_cases m <;> decide

theorem natStr_digits (n : Nat) : ∀ c ∈ natStr n, 48 ≤ c.toNat ∧ c.toNat ≤ 57 :=
  natStrAux_digits (n + 1) n

theorem last_col_letter_chars (cols : Nat) :
    ∀ c ∈ last_col_letter cols, c.toNat ≠ 10 ∧ c.toNat ≠ 58 := by
  unfold last_col_letter
  by_cases h : cols ≤ 26
  · rw [if_pos h]
    intro c hc
    simp at hc
    subst hc
    interval_cases cols <;> decide
  · rw [if_neg h]
    decide

theorem grid_line_chars (cols rows : Nat) :
    ∀ c ∈ grid_line cols rows, c.toNat ≠ 10 ∧ c.toNat ≠ 58 := by
  unfold grid_line
  intro c hc
  simp only [List.mem_append] at hc
  rcases hc with ((((((((hc | hc) | hc) | hc) | hc) | hc) | hc) | hc) | hc)
  · exact (by decide :
      ∀ x ∈ ("Current screen with ").toList, x.toNat ≠ 10 ∧ x.toNat ≠ 58) c hc
  · have := natStr_digits cols c hc
    omega
  · exact (by decide : ∀ x ∈ ("x").toList, x.toNat ≠ 10 ∧ x.toNat ≠ 58) c hc
  · have := natStr_digits rows c hc
    omega
  · exact (by decide :
      ∀ x ∈ (" grid (columns A-").toList, x.toNat ≠ 10 ∧ x.toNat ≠ 58) c hc
  · exact last_col_letter_chars cols c hc
  · exact (by decide : ∀ x ∈ (", rows 1-").toList, x.toNat ≠ 10 ∧ x.toNat ≠ 58) c hc
  · have := natStr_digits rows c hc
    omega
  · exact (by decide : ∀ x ∈ (").").toList, x.toNat ≠ 10 ∧ x.toNat ≠ 58) c hc

theorem isPrefixOf_cons_ne (p0 : Char) (pt : List Char) (c : Char) (z : List Char)
    (h : c ≠ p0) : (p0 :: pt).isPrefixOf (c :: z) = false := by
  show (p0 == c && pt.isPrefixOf z) = false
  rw [beq_eq_false_iff_ne.mpr (fun e => h e.symm)]
  rfl

theorem take_before_append (p0 : Char) (pt t u : List Char)
    (hne : ∀ c ∈ t, c ≠ p0) :
    take_before (p0 :: pt) (t ++ ((p0 :: pt) ++ u)) = t := by
  induction t with
  | nil =>
    show take_before (p0 :: pt) (p0 :: (pt ++ u)) = []
    rw [take_before, if_pos]
    show (p0 :: pt).isPrefixOf ((p0 :: pt) ++ u) = true
    exact isPrefixOf_append_self (p0 :: pt) u
  | cons c t' ih =>
    rw [List.cons_append, take_before,
      if_neg (by rw [isPrefixOf_cons_ne p0 pt c _ (hne c (by simp))]; simp),
      ih (fun d hd => hne d (by simp [hd]))]

theorem containsSub_append_self (pat u v : List Char) :
    containsSub pat (u ++ (pat ++ v)) = true := by
  induction u with
  | nil =>
    show containsSub pat (pat ++ v) = true
    cases hp : pat with
    | nil =>
      cases v with
      | nil => rfl
      | cons c r => rfl
    | cons p0 pt =>
      rw [List.cons_append, containsSub, ← List.cons_append, isPrefixOf_append_self]
      rfl
  | cons d u' ih =>
    rw [List.cons_append, containsSub, ih, Bool.or_true]

theorem mem_of_isPrefixOf :
    ∀ (pat s : List Char), pat.isPrefixOf s = true → ∀ x ∈ pat, x ∈ s := by
  intro pat
  induction pat with
  | nil =>
    intro s _ x hx
    simp at hx
  | cons p0 pt ih =>
    intro s hp x hx
    cases s with
    | nil => simp [List.isPrefixOf] at hp
    | cons c z =>
      have hp' : (p0 == c && pt.isPrefixOf z) = true := hp
      rw [Bool.and_eq_true] at hp'
      have he : p0 = c := by
        have := hp'.1
        exact eq_of_beq this
      rcases List.mem_cons.mp hx with hx | hx
      · subst hx
        rw [he]
        simp
      · exact List.mem_cons_of_mem c (ih z hp'.2 x hx)

theorem containsSub_false_of_missing (pat s : List Char) (d : Char) (hd : d ∈ pat)
    (hs : ∀ c ∈ s, c ≠ d) : containsSub pat s = false := by
  induction s with
  | nil =>
    rw [containsSub]
    cases pat with
    | nil => simp at hd
    | cons p0 pt => rfl
  | cons c rest ih =>
    rw [containsSub, Bool.or_eq_false_iff]
    constructor
    · cases hp : pat.isPrefixOf (c :: rest) with
      | false => rfl
      | true =>
        have := mem_of_isPrefixOf pat (c :: rest) hp d hd
        exact absurd rfl (hs d this)
    · exact ih (fun x hx => hs x (by simp [hx]))

theorem take_before_vision (cols rows : Nat) (h : List Char) :
    take_before hierSep (vision_text cols rows (some h)) = grid_line cols rows := by
  have hsh : vision_text cols rows (some h) =
      grid_line cols rows ++ (hierSep ++ (("\n```\n").toList ++ (h ++ (("\n```").toList ++
        ("\nWhat action should I take next?").toList)))) := by
    unfold vision_text
    simp [List.append_assoc]
  rw [hsh, show hierSep = '\n' :: (("\nUI Hierarchy:").toList) from rfl]
  apply take_before_append
  intro c hc e
  have hg := grid_line_chars cols rows c hc
  subst e
  exact hg.1 rfl

theorem marked_vision (cols rows : Nat) (h : List Char) :
    containsSub hierMarker (vision_text cols rows (some h)) = true := by
  have hsh : vision_text cols rows (some h) =
      (grid_line cols rows ++ ("\n\n").toList) ++ (hierMarker ++ (("\n```\n").toList ++
        (h ++ (("\n```").toList ++ ("\nWhat action should I take next?").toList)))) := by
    unfold vision_text
    rw [show hierSep = ("\n\n").toList ++ hierMarker from rfl]
    simp [List.append_assoc]
  rw [hsh]
  exact containsSub_append_self hierMarker _ _

theorem strip_vision_text (cols rows : Nat) (h : List Char) :
    strip_hier_text (vision_text cols rows (some h)) =
      grid_line cols rows ++ ("\n[UI hierarchy removed from history]").toList := by
  unfold strip_hier_text
  rw [if_pos (by rw [marked_vision]), take_before_vision]

theorem unmarked_grid_note (cols rows : Nat) :
    containsSub hierMarker
      (grid_line cols rows ++ ("\n[UI hierarchy removed from history]").toList) = false := by
  apply containsSub_false_of_missing _ _ ':' (by decide)
  intro c hc e
  rcases List.mem_append.mp hc with hc | hc
  · have hg := grid_line_chars cols rows c hc
    subst e
    exact hg.2 rfl
  · subst e
    exact (by decide :
      ¬ (':' ∈ ("\n[UI hierarchy removed from history]").toList)) hc

theorem unmarked_grid_screenshot (cols rows : Nat) :
    containsSub hierMarker (grid_line cols rows ++ screenshotRemovedMarker) = false := by
  apply containsSub_false_of_missing _ _ ':' (by decide)
  intro c hc e
  rcases List.mem_append.mp hc with hc | hc
  · have hg := grid_line_chars cols rows c hc
    subst e
    exact hg.2 rfl
  · subst e
    exact (by decide : ¬ (':' ∈ screenshotRemovedMarker)) hc

theorem intercalate_singleton (sep x : List Char) : List.intercalate sep [x] = x := by
  simp [List.intercalate]

theorem convert_vision (cols rows : Nat) (h : List Char) :
    convert_message (vision_message cols rows (some h)) =
      ⟨("user").toList, .str (grid_line cols rows ++ screenshotRemovedMarker)⟩ := by
  unfold convert_message vision_message degraded_text_parts
  simp only [List.filterMap_cons]
  rw [if_pos (by rw [marked_vision]), take_before_vision]
  simp [intercalate_singleton]

theorem strip_vision_message (cols rows : Nat) (h : List Char) :
    strip_hier_message (vision_message cols rows (some h)) =
      ⟨("user").toList, .items [.text (grid_line cols rows ++
        ("\n[UI hierarchy removed from history]").toList), .image]⟩ := by
  unfold strip_hier_message vision_message
  simp [strip_hier_item, strip_vision_text]

theorem msg_marked_vision (cols rows : Nat) (h : List Char) :
    msg_marked (vision_message cols rows (some h)) = true := by
  unfold msg_marked vision_message
  simp [item_marked, marked_vision]

theorem msg_marked_strip_vision (cols rows : Nat) (h : List Char) :
    msg_marked (strip_hier_message (vision_message cols rows (some h))) = false := by
  rw [strip_vision_message]
  unfold msg_marked
  simp only [List.any_cons, List.any_nil, item_marked, Bool.or_false]
  exact unmarked_grid_note cols rows

theorem msg_marked_convert_vision (cols rows : Nat) (h : List Char) :
    msg_marked (convert_message (vision_message cols rows (some h))) = false := by
  rw [convert_vision]
  unfold msg_marked
  exact unmarked_grid_screenshot cols rows

theorem count_marked_no_images (k : Nat) (ms : List ChatMessage)
    (H2 : ∀ m ∈ ms, has_image m = false → msg_marked m = false)
    (hz : count_images ms = 0) :
    (manage_history k ms).countP msg_marked = 0 := by
  induction ms with
  | nil => rfl
  | cons m rest ih =>
    rw [count_images_cons] at hz
    have hm : has_image m = false := by
      cases hh : has_image m
      · rfl
      · rw [hh] at hz
        simp at hz
    rw [manage_history, if_neg (by rw [hm]; simp), List.countP_cons,
      H2 m (by simp) hm, ih (fun d hd h => H2 d (by simp [hd]) h) (by omega)]
    rfl

theorem count_marked_manage (k : Nat) (ms : List ChatMessage)
    (hk : 1 ≤ k)
    (H1 : ∀ m ∈ ms, has_image m = true →
      ∃ c r h, m = vision_message c r (some h))
    (H2 : ∀ m ∈ ms, has_image m = false → msg_marked m = false) :
    (manage_history k ms).countP msg_marked = min 1 (count_images ms) := by
  induction ms with
  | nil => rfl
  | cons m rest ih =>
    have H1' : ∀ d ∈ rest, has_image d = true → ∃ c r h, d = vision_message c r (some h) :=
      fun d hd => H1 d (by simp [hd])
    have H2' : ∀ d ∈ rest, has_image d = false → msg_marked d = false :=
      fun d hd => H2 d (by simp [hd])
    rw [manage_history, count_images_cons]
    by_cases hm : has_image m = true
    · obtain ⟨c, r, h, rfl⟩ := H1 m (by simp) hm
      rw [if_pos hm, hm, if_pos rfl, List.countP_cons]
      by_cases h1 : count_images rest + 1 > k
      · rw [manage_message, if_pos h1, msg_marked_convert_vision]
        rw [ih H1' H2']
        have hr : 1 ≤ count_images rest := by omega
        rw [min_eq_left (by omega), min_eq_left (by omega)]
        simp
      · by_cases h2 : count_images rest + 1 > 1
        · rw [manage_message, if_neg h1, if_pos h2, msg_marked_strip_vision]
          rw [ih H1' H2']
          rw [min_eq_left (by omega), min_eq_left (by omega)]
          simp
        · have hz : count_images rest = 0 := by omega
          rw [manage_message, if_neg h1, if_neg h2, msg_marked_vision,
            count_marked_no_images k rest H2' hz, hz]
          rfl
    · have hm' : has_image m = false := by
        cases hh : has_image m
        · rfl
        · exact absurd hh hm
      rw [if_neg (by rw [hm']; simp), List.countP_cons, H2 m (by simp) hm',
        ih H1' H2', hm']
      simp

theorem manage_history_getD (k : Nat) (ms : List ChatMessage) :
    ∀ i, i < ms.length →
      (manage_history k ms).getD i default_message =
        (if has_image (ms.getD i default_message) then
          manage_message k (count_images (ms.drop i)) (ms.getD i default_message)
        else ms.getD i default_message) := by
  induction ms with
  | nil =>
    intro i hi
    simp at hi
  | cons m rest ih =>
    intro i hi
    cases i with
    | zero =>
      show (if has_image m then manage_message k (count_images rest + 1) m else m) = _
      rw [show (m :: rest).getD 0 default_message = m from rfl,
        show (m :: rest).drop 0 = m :: rest from rfl, count_images_cons]
      by_cases hm : has_image m = true
      · rw [hm]
        simp
      · have hm' : has_image m = false := by
          cases hh : has_image m
          · rfl
          · exact absurd hh hm
        rw [hm']
        simp
    | succ j =>
      show (manage_history k rest).getD j default_message = _
      rw [show (m :: rest).getD (j + 1) default_message = rest.getD j default_message
          from rfl,
        show (m :: rest).drop (j + 1) = rest.drop j from rfl]
      exact ih j (by simpa using hi)

/-- C3: after `_manage_history` runs with `max_images = k ≥ 1` on a history
whose image-bearing turns are the vision messages `_think` builds (each with
a full UI-hierarchy block) and whose other turns carry no hierarchy text:
(1) at most `k` turns carry image content; (2) exactly the most recent
image-bearing turn still carries the `"UI Hierarchy:"` text (when any
image-bearing turn exists) — it is retained unchanged, while every older
image-bearing turn within the cap has its hierarchy block stripped; and
(3) every image-bearing turn beyond the `k` most recent is exactly the
text-only conversion: its image payload is removed and its content becomes
the space-joined surviving text fragments (each hierarchy-stripped) followed
by the degradation marker. -/
theorem c3_history_pruning_invariant (k : Nat) (ms : List ChatMessage)
    (hk : 1 ≤ k)
    (H1 : ∀ m ∈ ms, has_image m = true → ∃ c r h, m = vision_message c r (some h))
    (H2 : ∀ m ∈ ms, has_image m = false → msg_marked m = false) :
    count_images (manage_history k ms) ≤ k ∧
    (manage_history k ms).countP msg_marked = min 1 (count_images ms) ∧
    (∀ i, i < ms.length → has_image (ms.getD i default_message) = true →
      (count_images (ms.drop i) = 1 →
        (manage_history k ms).getD i default_message = ms.getD i default_message) ∧
      (count_images (ms.drop i) ≤ k → 2 ≤ count_images (ms.drop i) →
        (manage_history k ms).getD i default_message =
          strip_hier_message (ms.getD i default_message)) ∧
      (count_images (ms.drop i) > k →
        (manage_history k ms).getD i default_message =
          convert_message (ms.getD i default_message) ∧
        has_image ((manage_history k ms).getD i default_message) = false ∧
        ∀ l, (ms.getD i default_message).content = MsgContent.items l →
          ((manage_history k ms).getD i default_message).content =
            MsgContent.str (List.intercalate ((" ").toList) (degraded_text_parts l) ++
              screenshotRemovedMarker))) := by
  refine ⟨?_, count_marked_manage k ms hk H1 H2, ?_⟩
  · rw [count_images_manage]
    exact min_le_left _ _
  · intro i hi him
    have hch := manage_history_getD k ms i hi
    refine ⟨?_, ?_, ?_⟩
    · intro h1
      rw [hch, if_pos him, h1, manage_message, if_neg (by omega), if_neg (by omega)]
    · intro hle h2
      rw [hch, if_pos him, manage_message, if_neg (by omega), if_pos (by omega)]
    · intro hgt
      rw [hch, if_pos him, manage_message, if_pos hgt]
      refine ⟨rfl, has_image_convert _, ?_⟩
      intro l hl
      unfold convert_message
      rw [hl]

/-- The history of the C3 witness: a system prompt, an older vision message,
a tool result, and the most recent vision message, with `max_images = 1`. -/
def c3_witness_history : List ChatMessage :=
  [⟨("system").toList, .str (("You are an expert Android device operator.").toList)⟩,
   vision_message 9 16 (some (("[Button] position=\"B2\"").toList)),
   ⟨("tool").toList, .str (("Tapped").toList)⟩,
   vision_message 9 16 (some (("[View] position=\"C3\"").toList))]

/-- Witness for `c3_history_pruning_invariant` on `c3_witness_history` with
`max_images = 1`. -/
theorem c3_history_pruning_invariant_witness :
    count_images (manage_history 1 c3_witness_history) ≤ 1 ∧
    (manage_history 1 c3_witness_history).countP msg_marked =
      min 1 (count_images c3_witness_history) ∧
    (∀ i, i < c3_witness_history.length →
      has_image (c3_witness_history.getD i default_message) = true →
      (count_images (c3_witness_history.drop i) = 1 →
        (manage_history 1 c3_witness_history).getD i default_message =
          c3_witness_history.getD i default_message) ∧
      (count_images (c3_witness_history.drop i) ≤ 1 →
        2 ≤ count_images (c3_witness_history.drop i) →
        (manage_history 1 c3_witness_history).getD i default_message =
          strip_hier_message (c3_witness_history.getD i default_message)) ∧
      (count_images (c3_witness_history.drop i) > 1 →
        (manage_history 1 c3_witness_history).getD i default_message =
          convert_message (c3_witness_history.getD i default_message) ∧
        has_image ((manage_history 1 c3_witness_history).getD i default_message) = false ∧
        ∀ l, (c3_witness_history.getD i default_message).content = MsgContent.items l →
          ((manage_history 1 c3_witness_history).getD i default_message).content =
            MsgContent.str (List.intercalate ((" ").toList) (degraded_text_parts l) ++
              screenshotRemovedMarker))) :=
  c3_history_pruning_invariant 1 c3_witness_history (by decide)
    (by
      intro m hm him
      simp only [c3_witness_history, List.mem_cons, List.not_mem_nil, or_false] at hm
      rcases hm with rfl | rfl | rfl | rfl
      · exact absurd him (by decide)
      · exact ⟨9, 16, (("[Button] position=\"B2\"").toList), rfl⟩
      · exact absurd him (by decide)
      · exact ⟨9, 16, (("[View] position=\"C3\"").toList), rfl⟩)
    (by decide)
